import Mathlib

/-!
Shallow embedding of the bloque blocking FIFO queue (package bloque,
files bloque.go and options.go) and verification of its specification.

Modelling conventions:
* Go `list.List` becomes a Lean `List` with the front at the head;
  `PushBack` is append, `Front`/`Remove(Front)` is head/tail.
* Go `int` fields become `Int` (they may be zero or negative).
* A `waiter` keeps its two race-sensitive flags `waiting` and `fired`;
  closing `waitChan` and setting `fired` happen together in the source,
  so `fired = true` stands for "signal channel closed".
* Each public call is modelled by its lock-protected decision step:
  one iteration of the wait loop, executed atomically under the queue
  mutex.  Blocking corresponds to the `blocked` outcome (a waiter was
  registered); a later wake re-runs the step on the new state.
* Mutex acquire/release is a no-op in the sequential embedding, except
  in `unblockNextWaiterTrace`, which instruments the source line by
  line to record whether each removed waiter's private mutex is still
  held when the function returns.
-/

/-- Embeds the `waiter` struct of bloque.go: `waiting` flags continued
interest in the notification, `fired` records that the condition was met
and `waitChan` was closed. -/
structure Waiter where
  waiting : Bool
  fired : Bool
deriving Repr, DecidableEq

/-- Embeds the waiter literal created in Push and Pop:
`&waiter{waitChan: make(chan interface{}), waiting: true}`. -/
def newWaiter : Waiter := { waiting := true, fired := false }

/-- Embeds `unblockNextWaiterLocked` (bloque.go lines 169-181): scan the
waiter list from the front, removing each entry; the first entry still
`waiting` has its channel closed and `fired` set, and the scan stops.
Returns the remaining list and the waiter that was woken, if any. -/
def unblockNextWaiterLocked : List Waiter → List Waiter × Option Waiter
  | [] => ([], none)
  | w :: rest =>
      if w.waiting then (rest, some { w with fired := true })
      else unblockNextWaiterLocked rest

/-- Written from the spec's words for wake-next (spec section 4.1):
entries with `waiting = false` are discarded from the front; the oldest
still-interested waiter, when one exists, is marked `fired` and the
entries behind it stay; with no interested waiter nothing is woken. -/
def wakeNextSpec (l : List Waiter) : List Waiter × Option Waiter :=
  match l.dropWhile (fun w => !w.waiting) with
  | [] => ([], none)
  | w :: rest => (rest, some { w with fired := true })

/-- Instrumented translation of `unblockNextWaiterLocked` (bloque.go
lines 169-181) that tracks the waiter private mutexes: each removed
entry is paired with whether its `mutex` is still held when the function
returns.  In the source, a woken entry is unlocked before the return,
but a skipped entry (`waiting = false`) is never unlocked. -/
def unblockNextWaiterTrace : List Waiter → List Waiter × List (Waiter × Bool)
  | [] => ([], [])
  | w :: rest =>
      if w.waiting then
        (rest, [({ w with fired := true }, false)])
      else
        let r := unblockNextWaiterTrace rest
        (r.1, (w, true) :: r.2)

/-- Embeds the `Bloque` struct of bloque.go. -/
structure Bloque (α : Type) where
  itemQueue : List α
  capacity : Int
  maxPushWaiters : Int
  maxPopWaiters : Int
  pushWaitersList : List Waiter
  popWaitersList : List Waiter
deriving Repr, DecidableEq

/-- Embeds `New()` with no options: empty lists, zero-valued limits. -/
def Bloque.New (α : Type) : Bloque α :=
  { itemQueue := []
    capacity := 0
    maxPushWaiters := 0
    maxPopWaiters := 0
    pushWaitersList := []
    popWaitersList := [] }

/-- Embeds `WithCapacity` of options.go. -/
def WithCapacity (capacity : Int) (b : Bloque α) : Bloque α :=
  { b with capacity := capacity }

/-- Embeds `WithMaxPushWaiters` of options.go. -/
def WithMaxPushWaiters (maxWaiters : Int) (b : Bloque α) : Bloque α :=
  { b with maxPushWaiters := maxWaiters }

/-- Embeds `WithMaxPopWaiters` of options.go. -/
def WithMaxPopWaiters (maxWaiters : Int) (b : Bloque α) : Bloque α :=
  { b with maxPopWaiters := maxWaiters }

/-- Outcome of one lock-protected decision step of Push. -/
inductive PushOutcome where
  | ok : PushOutcome
  | maxWaiters : PushOutcome
  | blocked : PushOutcome
deriving Repr, DecidableEq

/-- Embeds one iteration of the Push loop (bloque.go lines 67-111),
executed under the queue mutex: while the capacity is bounded and
reached, either fail with ErrMaxWaiters when the push-waiter limit is
saturated, or register a waiter and block; otherwise append the item to
the back and wake the next pop waiter. -/
def pushStep (q : Bloque α) (item : α) : Bloque α × PushOutcome :=
  if q.capacity > 0 ∧ (q.itemQueue.length : Int) ≥ q.capacity then
    if q.maxPushWaiters > 0 ∧ (q.pushWaitersList.length : Int) ≥ q.maxPushWaiters then
      (q, .maxWaiters)
    else
      ({ q with pushWaitersList := q.pushWaitersList ++ [newWaiter] }, .blocked)
  else
    ({ q with itemQueue := q.itemQueue ++ [item]
              popWaitersList := (unblockNextWaiterLocked q.popWaitersList).1 }, .ok)

/-- Outcome of one lock-protected decision step of Pop. -/
inductive PopOutcome (α : Type) where
  | ok : α → PopOutcome α
  | maxWaiters : PopOutcome α
  | blocked : PopOutcome α
deriving Repr, DecidableEq

/-- Embeds one iteration of the Pop loop (bloque.go lines 117-159),
executed under the queue mutex: while the queue is empty, either fail
with ErrMaxWaiters when the pop-waiter limit is saturated, or register a
waiter and block; otherwise remove and return the front item and wake
the next push waiter. -/
def popStep (q : Bloque α) : Bloque α × PopOutcome α :=
  match q.itemQueue with
  | [] =>
      if q.maxPopWaiters > 0 ∧ (q.popWaitersList.length : Int) ≥ q.maxPopWaiters then
        (q, .maxWaiters)
      else
        ({ q with popWaitersList := q.popWaitersList ++ [newWaiter] }, .blocked)
  | x :: rest =>
      ({ q with itemQueue := rest
                pushWaitersList := (unblockNextWaiterLocked q.pushWaitersList).1 }, .ok x)

/-- Embeds the `ctx.Done()` branch of a blocked Push (bloque.go lines
91-103): under the waiter's private lock set `waiting = false`; if
`fired` is already true, forward the notification by running
`unblockNextWaiterLocked` on the push-waiter list.  Returns the updated
queue and the waiter's final state. -/
def cancelPush (q : Bloque α) (w : Waiter) : Bloque α × Waiter :=
  let w1 := { w with waiting := false }
  if w1.fired then
    ({ q with pushWaitersList := (unblockNextWaiterLocked q.pushWaitersList).1 }, w1)
  else
    (q, w1)

/-- Embeds the `ctx.Done()` branch of a blocked Pop (bloque.go lines
137-149), symmetric to `cancelPush` on the pop-waiter list. -/
def cancelPop (q : Bloque α) (w : Waiter) : Bloque α × Waiter :=
  let w1 := { w with waiting := false }
  if w1.fired then
    ({ q with popWaitersList := (unblockNextWaiterLocked q.popWaitersList).1 }, w1)
  else
    (q, w1)

/-- Embeds `Len()` (bloque.go lines 162-167). -/
def Bloque.Len (q : Bloque α) : Nat := q.itemQueue.length

/-- Runs a sequence of Push steps, succeeding only when every push takes
the immediate-append path (outcome `ok`). -/
def pushList (q : Bloque α) : List α → Option (Bloque α)
  | [] => some q
  | x :: rest =>
      match pushStep q x with
      | (q1, .ok) => pushList q1 rest
      | _ => none

/-- Runs n Pop steps, succeeding only when every pop returns an item,
and collects the returned items in call order. -/
def popN (q : Bloque α) : Nat → Option (Bloque α × List α)
  | 0 => some (q, [])
  | n + 1 =>
      match popStep q with
      | (q1, .ok x) =>
          match popN q1 n with
          | some (q2, xs) => some (q2, x :: xs)
          | none => none
      | _ => none

/-- Modelled from the spec: the close/drain protocol (spec sections 4.2
step 2, 4.3, 4.4 and the error taxonomy) is part of this repository —
its tests use `Close()`, `ErrQueueClosed`, `PushWaiters()` and
`PopWaiters()` — but the corresponding queue code is not among the
provided source files.  `CBloque` extends the queue state with the
`closed` flag: boolean, monotonic false to true, never reset. -/
structure CBloque (α : Type) where
  itemQueue : List α
  capacity : Int
  maxPushWaiters : Int
  maxPopWaiters : Int
  pushWaitersList : List Waiter
  popWaitersList : List Waiter
  closed : Bool
deriving Repr, DecidableEq

/-- Outcome of one decision step of Push or Pop on the closed-aware
queue. -/
inductive COutcome (α : Type) where
  | ok : α → COutcome α
  | queueClosed : COutcome α
  | maxWaiters : COutcome α
  | blocked : COutcome α
deriving Repr, DecidableEq

/-- Modelled from the spec: Push on the closed-aware queue (spec section
4.2).  Step 2: if `closed`, fail with QueueClosed before any capacity or
waiter-limit check; otherwise the loop body is the one embedded from the
source in `pushStep`. -/
def cPushStep (q : CBloque α) (item : α) : CBloque α × COutcome Unit :=
  if q.closed then (q, .queueClosed)
  else if q.capacity > 0 ∧ (q.itemQueue.length : Int) ≥ q.capacity then
    if q.maxPushWaiters > 0 ∧ (q.pushWaitersList.length : Int) ≥ q.maxPushWaiters then
      (q, .maxWaiters)
    else
      ({ q with pushWaitersList := q.pushWaitersList ++ [newWaiter] }, .blocked)
  else
    ({ q with itemQueue := q.itemQueue ++ [item]
              popWaitersList := (unblockNextWaiterLocked q.popWaitersList).1 }, .ok ())

/-- Modelled from the spec: Pop on the closed-aware queue (spec sections
4.3 and 4.4).  A non-empty buffer is drained regardless of `closed`;
on an empty buffer the closed check precedes the waiter-limit check
(spec section 9), so a closed empty queue fails with QueueClosed. -/
def cPopStep (q : CBloque α) : CBloque α × COutcome α :=
  match q.itemQueue with
  | [] =>
      if q.closed then (q, .queueClosed)
      else if q.maxPopWaiters > 0 ∧ (q.popWaitersList.length : Int) ≥ q.maxPopWaiters then
        (q, .maxWaiters)
      else
        ({ q with popWaitersList := q.popWaitersList ++ [newWaiter] }, .blocked)
  | x :: rest =>
      ({ q with itemQueue := rest
                pushWaitersList := (unblockNextWaiterLocked q.pushWaitersList).1 }, .ok x)

/-- Modelled from the spec: `Close()` (spec section 4.4) sets
`closed = true` and wakes every currently registered waiter on both
lists.  Returns the new state together with the woken push waiters and
the woken pop waiters, each with its signal fired. -/
def closeStep (q : CBloque α) : CBloque α × List Waiter × List Waiter :=
  ({ q with closed := true
            pushWaitersList := []
            popWaitersList := [] },
   q.pushWaitersList.map (fun w => { w with fired := true }),
   q.popWaitersList.map (fun w => { w with fired := true }))

/-- C4: for every state of a waiter list, wake-next scans from the
front, discards the entries whose `waiting` flag is false, wakes the
first still-interested entry by firing its signal, and stops with the
entries behind it untouched; when no entry is interested nothing is
woken — the source `unblockNextWaiterLocked` coincides with the spec's
wake-next. -/
theorem wake_next_wakes_oldest_interested (l : List Waiter) :
    unblockNextWaiterLocked l = wakeNextSpec l := by
  induction l with
  | nil => rfl
  | cons w rest ih =>
      by_cases h : w.waiting = true
      · simp [unblockNextWaiterLocked, wakeNextSpec, List.dropWhile, h]
      · simp only [Bool.not_eq_true] at h
        simp only [unblockNextWaiterLocked, wakeNextSpec, List.dropWhile, h,
          Bool.not_false, if_true, ite_true]
        simpa [wakeNextSpec] using ih

/-- C10 counterexample: running wake-next on a list holding one
abandoned waiter (waiting = false, fired = false) leaves that waiter's
private mutex held when the function returns, refuting the claim that
every acquired waiter lock is released, including those of skipped
entries. -/
theorem wake_next_lock_leak :
    ¬ (∀ p ∈ (unblockNextWaiterTrace [{ waiting := false, fired := false }]).2,
         p.2 = false) := by
  decide

/-- C10 amended: wake-next releases the private lock of the one waiter
it wakes, but the lock of every skipped (no-longer-waiting) entry is
still held when it returns; each removed entry's lock is held exactly
when that entry was skipped. -/
theorem wake_next_lock_discipline (l : List Waiter) :
    ((unblockNextWaiterTrace l).2.all fun p => p.2 == !p.1.waiting) = true := by
  induction l with
  | nil => rfl
  | cons w rest ih =>
      by_cases h : w.waiting = true
      · simp [unblockNextWaiterTrace, h]
      · simp only [Bool.not_eq_true] at h
        simpa [unblockNextWaiterTrace, h] using ih

/-- C5: the cancellation branch of a blocked Push or Pop clears the
waiter's `waiting` flag, and exactly when the waiter had already been
fired it forwards the notification by running wake-next on the same
waiter list the call was registered on; otherwise the queue state is
untouched. -/
theorem cancel_clears_waiting_and_forwards {α : Type} (q : Bloque α) (w : Waiter) :
    (cancelPush q w).2.waiting = false ∧
    (cancelPop q w).2.waiting = false ∧
    (w.fired = true →
      (cancelPush q w).1 =
        { q with pushWaitersList := (unblockNextWaiterLocked q.pushWaitersList).1 } ∧
      (cancelPop q w).1 =
        { q with popWaitersList := (unblockNextWaiterLocked q.popWaitersList).1 }) ∧
    (w.fired = false → (cancelPush q w).1 = q ∧ (cancelPop q w).1 = q) := by
  by_cases h : w.fired = true
  · simp [cancelPush, cancelPop, h]
  · simp only [Bool.not_eq_true] at h
    simp [cancelPush, cancelPop, h]

/-- C5 witness: concrete run of both cancellation branches. -/
theorem cancel_clears_waiting_and_forwards_witness :
    (cancelPush (Bloque.New Nat) { waiting := true, fired := true }).1 =
      { Bloque.New Nat with
          pushWaitersList :=
            (unblockNextWaiterLocked (Bloque.New Nat).pushWaitersList).1 } ∧
    (cancelPop (Bloque.New Nat) { waiting := true, fired := true }).1 =
      { Bloque.New Nat with
          popWaitersList :=
            (unblockNextWaiterLocked (Bloque.New Nat).popWaitersList).1 } :=
  (cancel_clears_waiting_and_forwards (Bloque.New Nat)
    { waiting := true, fired := true }).2.2.1 rfl

/-- C6: a Push on a full queue whose push-waiter list has reached a
bounded maxPushWaiters returns ErrMaxWaiters synchronously, leaving the
state untouched (no waiter registered); symmetrically for a Pop on an
empty queue whose pop-waiter list has reached a bounded maxPopWaiters. -/
theorem max_waiters_rejected {α : Type} (q : Bloque α) (x : α) :
    (0 < q.capacity → q.capacity ≤ (q.itemQueue.length : Int) →
     0 < q.maxPushWaiters → q.maxPushWaiters ≤ (q.pushWaitersList.length : Int) →
     pushStep q x = (q, .maxWaiters)) ∧
    (q.itemQueue = [] →
     0 < q.maxPopWaiters → q.maxPopWaiters ≤ (q.popWaitersList.length : Int) →
     popStep q = (q, .maxWaiters)) := by
  constructor
  · intro hc hfull hm hsat
    simp [pushStep, hc, hfull, hm, hsat]
  · intro hq hm hsat
    simp [popStep, hq, hm, hsat]

/-- C6 witness: a full capacity-1 queue with one blocked pusher rejects
a further Push, and an empty queue with one blocked popper rejects a
further Pop. -/
theorem max_waiters_rejected_witness :
    pushStep (⟨[0], 1, 1, 0, [newWaiter], []⟩ : Bloque Nat) 7 =
      ((⟨[0], 1, 1, 0, [newWaiter], []⟩ : Bloque Nat), .maxWaiters) ∧
    popStep (⟨[], 0, 0, 1, [], [newWaiter]⟩ : Bloque Nat) =
      ((⟨[], 0, 0, 1, [], [newWaiter]⟩ : Bloque Nat), .maxWaiters) :=
  ⟨(max_waiters_rejected (⟨[0], 1, 1, 0, [newWaiter], []⟩ : Bloque Nat) 7).1
      (by decide) (by decide) (by decide) (by decide),
   (max_waiters_rejected (⟨[], 0, 0, 1, [], [newWaiter]⟩ : Bloque Nat) 7).2
      rfl (by decide) (by decide)⟩

/-- C9: a non-positive capacity means Push never waits and appends
immediately; a non-positive maxPushWaiters means Push never fails with
ErrMaxWaiters; a non-positive maxPopWaiters means Pop never fails with
ErrMaxWaiters. -/
theorem nonpositive_limits_unbounded {α : Type} (q : Bloque α) (x : α) :
    (q.capacity ≤ 0 →
      pushStep q x =
        ({ q with itemQueue := q.itemQueue ++ [x]
                  popWaitersList := (unblockNextWaiterLocked q.popWaitersList).1 },
         .ok)) ∧
    (q.maxPushWaiters ≤ 0 → (pushStep q x).2 ≠ PushOutcome.maxWaiters) ∧
    (q.maxPopWaiters ≤ 0 → (popStep q).2 ≠ PopOutcome.maxWaiters) := by
  refine ⟨?_, ?_, ?_⟩
  · intro hc
    have : ¬ (q.capacity > 0 ∧ (q.itemQueue.length : Int) ≥ q.capacity) := by
      intro h; omega
    simp [pushStep, this]
  · intro hm
    have hnot : ¬ (q.maxPushWaiters > 0 ∧ (q.pushWaitersList.length : Int) ≥ q.maxPushWaiters) := by
      intro h; omega
    by_cases hfull : q.capacity > 0 ∧ (q.itemQueue.length : Int) ≥ q.capacity
    · simp [pushStep, hfull, hnot]
    · simp [pushStep, hfull]
  · intro hm
    have hnot : ¬ (q.maxPopWaiters > 0 ∧ (q.popWaitersList.length : Int) ≥ q.maxPopWaiters) := by
      intro h; omega
    cases hq : q.itemQueue with
    | nil => simp [popStep, hq, hnot]
    | cons y rest => simp [popStep, hq]

/-- C9 witness: with capacity -1 a Push on a queue already holding two
items appends immediately, and with the waiter limits at 0 and -2
neither a blocked Push nor a blocked Pop is rejected. -/
theorem nonpositive_limits_unbounded_witness :
    pushStep (⟨[1, 2], -1, 0, -2, [], []⟩ : Bloque Nat) 3 =
      ({ (⟨[1, 2], -1, 0, -2, [], []⟩ : Bloque Nat) with
           itemQueue := [1, 2] ++ [3]
           popWaitersList :=
             (unblockNextWaiterLocked
               (⟨[1, 2], -1, 0, -2, [], []⟩ : Bloque Nat).popWaitersList).1 },
       .ok) ∧
    (pushStep (⟨[1, 2], -1, 0, -2, [], []⟩ : Bloque Nat) 3).2 ≠ PushOutcome.maxWaiters ∧
    (popStep (⟨[1, 2], -1, 0, -2, [], []⟩ : Bloque Nat)).2 ≠ PopOutcome.maxWaiters :=
  ⟨(nonpositive_limits_unbounded (⟨[1, 2], -1, 0, -2, [], []⟩ : Bloque Nat) 3).1
      (by decide),
   (nonpositive_limits_unbounded (⟨[1, 2], -1, 0, -2, [], []⟩ : Bloque Nat) 3).2.1
      (by decide),
   (nonpositive_limits_unbounded (⟨[1, 2], -1, 0, -2, [], []⟩ : Bloque Nat) 3).2.2
      (by decide)⟩

/-- C7: with a positive capacity, the bound len(items) <= capacity is
preserved by every lock-protected step — a Push only appends when the
queue is below capacity, a Pop only shrinks the buffer, and the
cancellation branches leave the buffer alone; no step changes the
capacity itself. -/
theorem capacity_invariant {α : Type} (q : Bloque α) (x : α) (w : Waiter)
    (hc : 0 < q.capacity) (hinv : (q.itemQueue.length : Int) ≤ q.capacity) :
    ((pushStep q x).1.itemQueue.length : Int) ≤ q.capacity ∧
    (pushStep q x).1.capacity = q.capacity ∧
    ((popStep q).1.itemQueue.length : Int) ≤ q.capacity ∧
    (popStep q).1.capacity = q.capacity ∧
    ((cancelPush q w).1.itemQueue.length : Int) ≤ q.capacity ∧
    ((cancelPop q w).1.itemQueue.length : Int) ≤ q.capacity := by
  have hcancel₁ : (cancelPush q w).1.itemQueue = q.itemQueue := by
    by_cases h : w.fired = true <;> simp [cancelPush, h]
  have hcancel₂ : (cancelPop q w).1.itemQueue = q.itemQueue := by
    by_cases h : w.fired = true <;> simp [cancelPop, h]
  have hpush : ((pushStep q x).1.itemQueue.length : Int) ≤ q.capacity ∧
      (pushStep q x).1.capacity = q.capacity := by
    by_cases hfull : q.capacity > 0 ∧ (q.itemQueue.length : Int) ≥ q.capacity
    · by_cases hsat : q.maxPushWaiters > 0 ∧
          (q.pushWaitersList.length : Int) ≥ q.maxPushWaiters
      · simpa [pushStep, hfull, hsat] using hinv
      · simpa [pushStep, hfull, hsat] using hinv
    · have hlt : (q.itemQueue.length : Int) < q.capacity := by
        rcases not_and_or.mp hfull with h | h
        · omega
        · omega
      simp only [pushStep, hfull, if_false, ite_false]
      constructor
      · simp only [List.length_append, List.length_cons, List.length_nil]
        push_cast
        omega
      · trivial
  have hpop : ((popStep q).1.itemQueue.length : Int) ≤ q.capacity ∧
      (popStep q).1.capacity = q.capacity := by
    cases hq : q.itemQueue with
    | nil =>
        have hstate : (popStep q).1 = q ∨
            (popStep q).1 = { q with popWaitersList := q.popWaitersList ++ [newWaiter] } := by
          by_cases hsat : q.maxPopWaiters > 0 ∧
              (q.popWaitersList.length : Int) ≥ q.maxPopWaiters
          · left; simp [popStep, hq, hsat]
          · right; simp [popStep, hq, hsat]
        rcases hstate with h | h <;> rw [h] <;> exact ⟨hinv, rfl⟩
    | cons y rest =>
        have : (rest.length : Int) ≤ q.capacity := by
          rw [hq] at hinv
          simp only [List.length_cons] at hinv
          push_cast at hinv ⊢
          omega
        simpa [popStep, hq] using this
  exact ⟨hpush.1, hpush.2, hpop.1, hpop.2, hcancel₁ ▸ hinv, hcancel₂ ▸ hinv⟩

/-- C7 witness: concrete run on a capacity-2 queue holding two items. -/
theorem capacity_invariant_witness :
    (((pushStep (⟨[4, 5], 2, 0, 0, [], []⟩ : Bloque Nat) 6).1.itemQueue.length : Int) ≤ 2) ∧
    (pushStep (⟨[4, 5], 2, 0, 0, [], []⟩ : Bloque Nat) 6).1.capacity = 2 ∧
    (((popStep (⟨[4, 5], 2, 0, 0, [], []⟩ : Bloque Nat)).1.itemQueue.length : Int) ≤ 2) ∧
    (popStep (⟨[4, 5], 2, 0, 0, [], []⟩ : Bloque Nat)).1.capacity = 2 ∧
    (((cancelPush (⟨[4, 5], 2, 0, 0, [], []⟩ : Bloque Nat) newWaiter).1.itemQueue.length : Int) ≤ 2) ∧
    (((cancelPop (⟨[4, 5], 2, 0, 0, [], []⟩ : Bloque Nat) newWaiter).1.itemQueue.length : Int) ≤ 2) :=
  capacity_invariant (⟨[4, 5], 2, 0, 0, [], []⟩ : Bloque Nat) 6 newWaiter
    (by decide) (by decide)

/-- C8: every erroring or blocking outcome leaves the item buffer
unchanged — a Push that fails with ErrMaxWaiters or registers a waiter
did not enqueue, a Pop that fails with ErrMaxWaiters or registers a
waiter did not remove, and the cancellation branches never touch the
buffer. -/
theorem no_partial_effects {α : Type} (q : Bloque α) (x : α) (w : Waiter) :
    ((pushStep q x).2 = PushOutcome.maxWaiters →
       (pushStep q x).1.itemQueue = q.itemQueue) ∧
    ((pushStep q x).2 = PushOutcome.blocked →
       (pushStep q x).1.itemQueue = q.itemQueue) ∧
    ((popStep q).2 = PopOutcome.maxWaiters →
       (popStep q).1.itemQueue = q.itemQueue) ∧
    ((popStep q).2 = PopOutcome.blocked →
       (popStep q).1.itemQueue = q.itemQueue) ∧
    (cancelPush q w).1.itemQueue = q.itemQueue ∧
    (cancelPop q w).1.itemQueue = q.itemQueue := by
  have hcancel₁ : (cancelPush q w).1.itemQueue = q.itemQueue := by
    by_cases h : w.fired = true <;> simp [cancelPush, h]
  have hcancel₂ : (cancelPop q w).1.itemQueue = q.itemQueue := by
    by_cases h : w.fired = true <;> simp [cancelPop, h]
  refine ⟨?_, ?_, ?_, ?_, hcancel₁, hcancel₂⟩
  all_goals
    first
    | (intro h
       by_cases hfull : q.capacity > 0 ∧ (q.itemQueue.length : Int) ≥ q.capacity
       · by_cases hsat : q.maxPushWaiters > 0 ∧
             (q.pushWaitersList.length : Int) ≥ q.maxPushWaiters
         · simp [pushStep, hfull, hsat]
         · simp [pushStep, hfull, hsat]
       · simp [pushStep, hfull] at h)
    | (intro h
       cases hq : q.itemQueue with
       | nil =>
           by_cases hsat : q.maxPopWaiters > 0 ∧
               (q.popWaitersList.length : Int) ≥ q.maxPopWaiters
           · simp [popStep, hq, hsat]
           · simp [popStep, hq, hsat]
       | cons y rest => simp [popStep, hq] at h)

/-- C8 witness: concrete runs of rejected and blocked Push and Pop. -/
theorem no_partial_effects_witness :
    ((pushStep (⟨[0], 1, 1, 1, [newWaiter], [newWaiter]⟩ : Bloque Nat) 7).2 =
        PushOutcome.maxWaiters →
      (pushStep (⟨[0], 1, 1, 1, [newWaiter], [newWaiter]⟩ : Bloque Nat) 7).1.itemQueue = [0]) ∧
    (cancelPush (⟨[0], 1, 1, 1, [newWaiter], [newWaiter]⟩ : Bloque Nat) newWaiter).1.itemQueue = [0] :=
  ⟨(no_partial_effects (⟨[0], 1, 1, 1, [newWaiter], [newWaiter]⟩ : Bloque Nat) 7 newWaiter).1,
   (no_partial_effects (⟨[0], 1, 1, 1, [newWaiter], [newWaiter]⟩ : Bloque Nat) 7 newWaiter).2.2.2.2.1⟩

/-- Helper: a successful sequence of immediate pushes appends the pushed
values, in order, to the back of the item buffer. -/
theorem pushList_itemQueue {α : Type} :
    ∀ (xs : List α) (q q1 : Bloque α), pushList q xs = some q1 →
      q1.itemQueue = q.itemQueue ++ xs := by
  intro xs
  induction xs with
  | nil =>
      intro q q1 h
      simp only [pushList, Option.some.injEq] at h
      simp [← h]
  | cons x rest ih =>
      intro q q1 h
      by_cases hfull : q.capacity > 0 ∧ (q.itemQueue.length : Int) ≥ q.capacity
      · by_cases hsat : q.maxPushWaiters > 0 ∧
            (q.pushWaitersList.length : Int) ≥ q.maxPushWaiters
        · simp [pushList, pushStep, hfull, hsat] at h
        · simp [pushList, pushStep, hfull, hsat] at h
      · simp only [pushList, pushStep, hfull, if_false, ite_false] at h
        have := ih _ _ h
        simp [this]

/-- Helper: when at least n items are buffered, n pop steps succeed and
return the first n buffered items, in buffer order. -/
theorem popN_take {α : Type} :
    ∀ (n : Nat) (q : Bloque α), n ≤ q.itemQueue.length →
      ∃ q2, popN q n = some (q2, q.itemQueue.take n) := by
  intro n
  induction n with
  | zero => intro q h; exact ⟨q, by simp [popN]⟩
  | succ n ih =>
      intro q h
      cases hq : q.itemQueue with
      | nil => rw [hq] at h; simp at h
      | cons y rest =>
          have hlen : n ≤ rest.length := by
            rw [hq] at h; simpa using h
          have hstep : popStep q =
              ({ q with itemQueue := rest
                        pushWaitersList :=
                          (unblockNextWaiterLocked q.pushWaitersList).1 }, .ok y) := by
            simp [popStep, hq]
          obtain ⟨q2, hrec⟩ := ih
            { q with itemQueue := rest
                     pushWaitersList := (unblockNextWaiterLocked q.pushWaitersList).1 }
            hlen
          refine ⟨q2, ?_⟩
          simp only [popN, hstep, hrec, hq, List.take_succ_cons]

/-- C2: for every sequence of successful Push calls on an initially
empty queue followed by as many Pop calls, the Pop calls return exactly
the pushed values in push order. -/
theorem fifo_order {α : Type} (q q1 : Bloque α) (xs : List α)
    (hempty : q.itemQueue = []) (hpush : pushList q xs = some q1) :
    ∃ q2, popN q1 xs.length = some (q2, xs) := by
  have hbuf : q1.itemQueue = xs := by
    have := pushList_itemQueue xs q q1 hpush
    simpa [hempty] using this
  have := popN_take xs.length q1 (by simp [hbuf])
  simpa [hbuf] using this

/-- C2 witness: push 1, 2, 3 onto a fresh queue, then three pops return
1, 2, 3 in order. -/
theorem fifo_order_witness :
    ∃ q2, popN (⟨[1, 2, 3], 0, 0, 0, [], []⟩ : Bloque Nat) 3 =
      some (q2, [1, 2, 3]) :=
  fifo_order (Bloque.New Nat) (⟨[1, 2, 3], 0, 0, 0, [], []⟩ : Bloque Nat)
    [1, 2, 3] rfl (by decide)

/-- C1: on a closed queue, every Push fails with QueueClosed and leaves
the state untouched; a Pop returns the front item and removes exactly it
while the buffer is non-empty, and fails with QueueClosed once the
buffer is empty.  The closed flag is preserved by Push and Pop, so this
covers every call made after Close. -/
theorem closed_push_fails_pop_drains {α : Type} (q : CBloque α)
    (h : q.closed = true) :
    (∀ x, cPushStep q x = (q, COutcome.queueClosed)) ∧
    (∀ x rest, q.itemQueue = x :: rest →
       (cPopStep q).2 = COutcome.ok x ∧ (cPopStep q).1.itemQueue = rest ∧
       (cPopStep q).1.closed = true) ∧
    (q.itemQueue = [] → cPopStep q = (q, COutcome.queueClosed)) := by
  refine ⟨?_, ?_, ?_⟩
  · intro x
    simp [cPushStep, h]
  · intro x rest hq
    refine ⟨?_, ?_, ?_⟩ <;> simp [cPopStep, hq, h]
  · intro hq
    simp [cPopStep, hq, h]

/-- C1 witness: concrete drain of a closed queue holding one item, and
rejection of Push and of Pop-on-empty. -/
theorem closed_push_fails_pop_drains_witness :
    cPushStep (⟨[5], 0, 0, 0, [], [], true⟩ : CBloque Nat) 9 =
      ((⟨[5], 0, 0, 0, [], [], true⟩ : CBloque Nat), COutcome.queueClosed) ∧
    (cPopStep (⟨[5], 0, 0, 0, [], [], true⟩ : CBloque Nat)).2 = COutcome.ok 5 ∧
    cPopStep (⟨[], 0, 0, 0, [], [], true⟩ : CBloque Nat) =
      ((⟨[], 0, 0, 0, [], [], true⟩ : CBloque Nat), COutcome.queueClosed) :=
  ⟨(closed_push_fails_pop_drains (⟨[5], 0, 0, 0, [], [], true⟩ : CBloque Nat) rfl).1 9,
   ((closed_push_fails_pop_drains (⟨[5], 0, 0, 0, [], [], true⟩ : CBloque Nat) rfl).2.1
      5 [] rfl).1,
   (closed_push_fails_pop_drains (⟨[], 0, 0, 0, [], [], true⟩ : CBloque Nat) rfl).2.2 rfl⟩

/-- C3: Close sets the closed flag, is idempotent beyond the first call
(the closed state is a fixpoint), the flag is never reset by Push or
Pop, and the first Close wakes every waiter registered on both the
push-waiter and the pop-waiter list by firing their signals; a woken
push waiter then gets QueueClosed, and a woken pop waiter gets
QueueClosed once the buffer is empty. -/
theorem close_once_wakes_all {α : Type} (q : CBloque α) (x : α) :
    (closeStep q).1.closed = true ∧
    (closeStep (closeStep q).1).1 = (closeStep q).1 ∧
    (cPushStep q x).1.closed = q.closed ∧
    (cPopStep q).1.closed = q.closed ∧
    (closeStep q).2.1 = q.pushWaitersList.map (fun w => { w with fired := true }) ∧
    (closeStep q).2.2 = q.popWaitersList.map (fun w => { w with fired := true }) ∧
    (∀ y, (cPushStep (closeStep q).1 y).2 = COutcome.queueClosed) ∧
    (q.itemQueue = [] → (cPopStep (closeStep q).1).2 = COutcome.queueClosed) := by
  refine ⟨rfl, rfl, ?_, ?_, rfl, rfl, ?_, ?_⟩
  · by_cases hcl : q.closed = true
    · simp [cPushStep, hcl]
    · simp only [Bool.not_eq_true] at hcl
      by_cases hfull : q.capacity > 0 ∧ (q.itemQueue.length : Int) ≥ q.capacity
      · by_cases hsat : q.maxPushWaiters > 0 ∧
            (q.pushWaitersList.length : Int) ≥ q.maxPushWaiters
        · simp [cPushStep, hcl, hfull, hsat]
        · simp [cPushStep, hcl, hfull, hsat]
      · simp [cPushStep, hcl, hfull]
  · cases hq : q.itemQueue with
    | nil =>
        by_cases hcl : q.closed = true
        · simp [cPopStep, hq, hcl]
        · simp only [Bool.not_eq_true] at hcl
          by_cases hsat : q.maxPopWaiters > 0 ∧
              (q.popWaitersList.length : Int) ≥ q.maxPopWaiters
          · simp [cPopStep, hq, hcl, hsat]
          · simp [cPopStep, hq, hcl, hsat]
    | cons y rest => simp [cPopStep, hq]
  · intro y
    simp [cPushStep, closeStep]
  · intro hq
    simp [cPopStep, closeStep, hq]

/-- C3 witness: concrete Close on a queue with one waiter on each list. -/
theorem close_once_wakes_all_witness :
    (closeStep (⟨[], 0, 0, 0, [newWaiter], [newWaiter], false⟩ : CBloque Nat)).1.closed = true ∧
    (cPopStep (closeStep
        (⟨[], 0, 0, 0, [newWaiter], [newWaiter], false⟩ : CBloque Nat)).1).2 =
      COutcome.queueClosed :=
  ⟨(close_once_wakes_all (⟨[], 0, 0, 0, [newWaiter], [newWaiter], false⟩ : CBloque Nat) 0).1,
   (close_once_wakes_all (⟨[], 0, 0, 0, [newWaiter], [newWaiter], false⟩ : CBloque Nat) 0).2.2.2.2.2.2.2
     rfl⟩
